import Mathlib

/-!
Verification of the knowledge memory engine of the DynamicAgent repository.

We shallowly embed the Python classes of `app/knowledge/` as Lean functions
over explicit state:

* `NodeManager` (node_manager.py): property-graph upsert / lookup over an
  external Neo4j database.  The Cypher queries issued by the code have a
  small fixed shape (`MERGE (n:L {id: $id}) SET n += $properties RETURN n`,
  `MATCH (n:L {id: $id}) RETURN n`, `MATCH (n:L) RETURN n`), so each method
  is embedded as a Lean function over an explicit store, with the standard
  semantics of those query shapes.
* `RelationshipManager` (relationship_manager.py), `QueryExecutor`
  (query_executor.py, a tenacity-decorated query runner),
  `KnowledgeImportExport` (knowledge_import_export.py),
  `EmbeddingManager` (embedding_manager.py) and `CommunityManager`
  (community_manager.py).

Python dictionaries are embedded as insertion-ordered association lists,
numpy vectors as `List ℝ`, and the external sentence-transformer model as an
explicit function argument `model : String → List ℝ`.
-/

/-- A Python / Neo4j property value, as handled by `node_manager.py`
(strings, ints, bools, lists and dicts; this is the subset the knowledge
code stores and the claims exercise). -/
inductive Value where
  | vStr (s : String)
  | vInt (n : Int)
  | vBool (b : Bool)
  | vList (items : List Value)
  | vDict (fields : List (String × Value))

open Value

mutual

/-- Decidable equality on `Value` (hand-rolled: the nested inductive is not
covered by `deriving`). -/
def valueDecEq : (a b : Value) → Decidable (a = b)
  | vStr s, vStr t =>
    match decEq s t with
    | isTrue h => isTrue (by rw [h])
    | isFalse h => isFalse (by simp [h])
  | vInt m, vInt n =>
    match decEq m n with
    | isTrue h => isTrue (by rw [h])
    | isFalse h => isFalse (by simp [h])
  | vBool a, vBool b =>
    match decEq a b with
    | isTrue h => isTrue (by rw [h])
    | isFalse h => isFalse (by simp [h])
  | vList xs, vList ys =>
    match valueListDecEq xs ys with
    | isTrue h => isTrue (by rw [h])
    | isFalse h => isFalse (by simp [h])
  | vDict xs, vDict ys =>
    match fieldListDecEq xs ys with
    | isTrue h => isTrue (by rw [h])
    | isFalse h => isFalse (by simp [h])
  | vStr _, vInt _ => isFalse (fun h => Value.noConfusion h)
  | vStr _, vBool _ => isFalse (fun h => Value.noConfusion h)
  | vStr _, vList _ => isFalse (fun h => Value.noConfusion h)
  | vStr _, vDict _ => isFalse (fun h => Value.noConfusion h)
  | vInt _, vStr _ => isFalse (fun h => Value.noConfusion h)
  | vInt _, vBool _ => isFalse (fun h => Value.noConfusion h)
  | vInt _, vList _ => isFalse (fun h => Value.noConfusion h)
  | vInt _, vDict _ => isFalse (fun h => Value.noConfusion h)
  | vBool _, vStr _ => isFalse (fun h => Value.noConfusion h)
  | vBool _, vInt _ => isFalse (fun h => Value.noConfusion h)
  | vBool _, vList _ => isFalse (fun h => Value.noConfusion h)
  | vBool _, vDict _ => isFalse (fun h => Value.noConfusion h)
  | vList _, vStr _ => isFalse (fun h => Value.noConfusion h)
  | vList _, vInt _ => isFalse (fun h => Value.noConfusion h)
  | vList _, vBool _ => isFalse (fun h => Value.noConfusion h)
  | vList _, vDict _ => isFalse (fun h => Value.noConfusion h)
  | vDict _, vStr _ => isFalse (fun h => Value.noConfusion h)
  | vDict _, vInt _ => isFalse (fun h => Value.noConfusion h)
  | vDict _, vBool _ => isFalse (fun h => Value.noConfusion h)
  | vDict _, vList _ => isFalse (fun h => Value.noConfusion h)

/-- Decidable equality on lists of values. -/
def valueListDecEq : (a b : List Value) → Decidable (a = b)
  | [], [] => isTrue rfl
  | [], _ :: _ => isFalse (fun h => List.noConfusion h)
  | _ :: _, [] => isFalse (fun h => List.noConfusion h)
  | x :: xs, y :: ys =>
    match valueDecEq x y with
    | isTrue h1 =>
      match valueListDecEq xs ys with
      | isTrue h2 => isTrue (by rw [h1, h2])
      | isFalse h2 => isFalse (by simp [h2])
    | isFalse h1 => isFalse (by simp [h1])

/-- Decidable equality on lists of string-keyed fields. -/
def fieldListDecEq : (a b : List (String × Value)) → Decidable (a = b)
  | [], [] => isTrue rfl
  | [], _ :: _ => isFalse (fun h => List.noConfusion h)
  | _ :: _, [] => isFalse (fun h => List.noConfusion h)
  | (k, x) :: xs, (k', y) :: ys =>
    match decEq k k' with
    | isTrue hk =>
      match valueDecEq x y with
      | isTrue h1 =>
        match fieldListDecEq xs ys with
        | isTrue h2 => isTrue (by rw [hk, h1, h2])
        | isFalse h2 => isFalse (by simp [h2])
      | isFalse h1 => isFalse (by simp [h1])
    | isFalse hk => isFalse (by simp [hk])

end

instance : DecidableEq Value := valueDecEq

/-- A Python dict with `String` keys, embedded as an insertion-ordered
association list (first occurrence of a key is the binding that is read). -/
abbrev PropMap := List (String × Value)

/-- `m[k]` / `m.get(k)`: value of the first binding of `k`. -/
def alistGet {β : Type} : List (String × β) → String → Option β
  | [], _ => none
  | p :: rest, k => if p.1 = k then some p.2 else alistGet rest k

/-- `m[k] = v`: replace the value of the first binding of `k`, or append a
new binding if `k` is absent (Python dict insertion order). -/
def alistSet {β : Type} : List (String × β) → String → β → List (String × β)
  | [], k, v => [(k, v)]
  | p :: rest, k, v =>
    if p.1 = k then (k, v) :: rest else p :: alistSet rest k v

/-- `m.pop(k, default)`: the value bound to `k` (or the default) together
with the map with every binding of `k` removed. -/
def alistPop {β : Type} (m : List (String × β)) (k : String) (dflt : β) :
    β × List (String × β) :=
  match alistGet m k with
  | some v => (v, m.filter (fun p => ¬ p.1 = k))
  | none => (dflt, m)

mutual

/-- `json.dumps` on the embedded value type (as invoked by
`node_manager.py` on non-primitive property values). -/
def jsonDumps : Value → String
  | vStr s => "\"" ++ s ++ "\""
  | vInt n => toString n
  | vBool b => if b then "true" else "false"
  | vList items => "[" ++ jsonDumpsList items ++ "]"
  | vDict fields => "\x7b" ++ jsonDumpsFields fields ++ "\x7d"

/-- Comma-separated serialization of a JSON array body. -/
def jsonDumpsList : List Value → String
  | [] => ""
  | [v] => jsonDumps v
  | v :: rest => jsonDumps v ++ ", " ++ jsonDumpsList rest

/-- Comma-separated serialization of a JSON object body. -/
def jsonDumpsFields : List (String × Value) → String
  | [] => ""
  | [(k, v)] => "\"" ++ k ++ "\": " ++ jsonDumps v
  | (k, v) :: rest => "\"" ++ k ++ "\": " ++ jsonDumps v ++ ", " ++ jsonDumpsFields rest

end

/-- Python truthiness of a value (`bool(v)`), used by the
`properties.get('id') or str(uuid.uuid4())` idiom of `node_manager.py`. -/
def pyTruthy : Value → Bool
  | vStr s => s ≠ ""
  | vInt n => n ≠ 0
  | vBool b => b
  | vList items => !items.isEmpty
  | vDict fields => !fields.isEmpty

/-- `isinstance(item, (str, int, float, bool))`: a primitive scalar list
item, per the list check in `node_manager.py` line 17. -/
def isPrimScalar : Value → Bool
  | vStr _ => true
  | vInt _ => true
  | vBool _ => true
  | vList _ => false
  | vDict _ => false

/-- `node_manager.py` lines 16-18: a property value is JSON-dumped unless it
is a primitive scalar or a homogeneous list of primitive scalars. -/
def needsJsonDump : Value → Bool
  | vStr _ => false
  | vInt _ => false
  | vBool _ => false
  | vList items => ¬ items.all isPrimScalar
  | vDict _ => true

/-- The per-value coercion of `node_manager.py` lines 16-18. -/
def coerceValue (v : Value) : Value :=
  if needsJsonDump v then vStr (jsonDumps v) else v

/-- The coercion loop `for key, value in properties.items()` of
`node_manager.py` lines 16-18, applied to every property value. -/
def coerceProps (props : PropMap) : PropMap :=
  props.map (fun p => (p.1, coerceValue p.2))

/-- A stored graph node: a Neo4j node with one label and a property map. -/
structure Node where
  label : String
  props : PropMap
deriving DecidableEq

/-- A stored relationship (`relationship_manager.py`). -/
structure GraphRel where
  relType : String
  startId : String
  endId : String
  props : PropMap
deriving DecidableEq

/-- The state of the external graph database. -/
structure Store where
  nodes : List Node
  rels : List GraphRel
deriving DecidableEq

/-- The empty database. -/
def emptyStore : Store := { nodes := [], rels := [] }

/-- `SET n += $properties`: apply every binding of `updates` to `m` in
order (Cypher map-merge, same as repeated dict assignment). -/
def setAll (m : PropMap) (updates : PropMap) : PropMap :=
  updates.foldl (fun acc p => alistSet acc p.1 p.2) m

/-- `node_manager.py` line 13:
`node_id = properties.get('id') or str(uuid.uuid4())` with the fresh UUID
string passed explicitly. -/
def nodeIdValue (props : PropMap) (fresh : String) : Value :=
  match alistGet props "id" with
  | some v => if pyTruthy v then v else vStr fresh
  | none => vStr fresh

/-- Whether a stored node is matched by `MERGE (n:label {id: $id})`. -/
def mergeMatches (label : String) (idv : Value) (nd : Node) : Bool :=
  nd.label = label && alistGet nd.props "id" = some idv

/-- `NodeManager.add_or_update_node` (node_manager.py lines 12-27).

Coalesces the node id (line 13), writes it back into the property dict
(line 14), JSON-coerces non-primitive values (lines 16-18), then runs
`MERGE (n:label {id: $id}) SET n += $properties RETURN n`: every stored
node with this label and id is updated with the coerced properties; if
there is none, a node `{id: $id}` is created and then updated.  Returns
`result[0]['n']` (the property map of the first returned node; the neo4j
driver's `data()` renders a node as its property map) and the new store. -/
def add_or_update_node (fresh : String) (st : Store) (label : String)
    (props : PropMap) : Option PropMap × Store :=
  let nodeId := nodeIdValue props fresh
  let props1 := alistSet props "id" nodeId
  let props2 := coerceProps props1
  if st.nodes.any (mergeMatches label nodeId) then
    let nodes' := st.nodes.map (fun nd =>
      if mergeMatches label nodeId nd then
        { nd with props := setAll nd.props props2 }
      else nd)
    let returned := (nodes'.filter (mergeMatches label nodeId)).head?.map Node.props
    (returned, { st with nodes := nodes' })
  else
    let newNode : Node := { label := label, props := setAll [("id", nodeId)] props2 }
    (some newNode.props, { st with nodes := st.nodes ++ [newNode] })

/-- `NodeManager.get_node` (node_manager.py lines 29-35):
`MATCH (n:label {id: $id}) RETURN n`, then `result[0]['n']` or `None`. -/
def get_node (st : Store) (label : String) (idv : Value) : Option PropMap :=
  ((st.nodes.filter (mergeMatches label idv)).head?).map Node.props

/-- `NodeManager.get_all_nodes` (node_manager.py lines 37-43).

The label is interpolated into the query with an f-string, so passing the
Python value `None` (as `export_knowledge` does) produces the query
`MATCH (n:None) RETURN n`, which matches only nodes whose label is the
literal string `None`. -/
def get_all_nodes (st : Store) (label : Option String) : List PropMap :=
  let labelStr := match label with
    | some s => s
    | none => "None"
  (st.nodes.filter (fun nd => nd.label = labelStr)).map Node.props

/-- `RelationshipManager.add_relationship` (relationship_manager.py lines
10-26).

Generates a relationship id (passed explicitly as `fresh`), writes it into
the property dict, then runs
`MATCH (a {id: $start_node_id}) MATCH (b {id: $end_node_id})
 CREATE (a)-[r:TYPE $properties]->(b) RETURN r`:
one relationship is created per pair of matching endpoint rows.  When
either `MATCH` clause finds no node the query yields zero rows, so nothing
is created and no error is raised — the `Except` channel models a raised
database exception, which this query never produces. -/
def add_relationship (fresh : String) (st : Store)
    (startNodeId endNodeId relType : String) (props : PropMap) :
    Except String Store :=
  let props1 := alistSet props "id" (vStr fresh)
  let starts := st.nodes.filter (fun nd => alistGet nd.props "id" = some (vStr startNodeId))
  let ends := st.nodes.filter (fun nd => alistGet nd.props "id" = some (vStr endNodeId))
  let newRels := starts.flatMap (fun _ =>
    ends.map (fun _ =>
      ({ relType := relType, startId := startNodeId, endId := endNodeId,
         props := props1 } : GraphRel)))
  Except.ok { st with rels := st.rels ++ newRels }

/-- The error taxonomy of the storage layer as the spec names it: a
transient connectivity failure versus an authentication failure. -/
inductive DbError where
  | connectivity
  | auth
deriving DecidableEq

/-- The retry loop wrapped around `QueryExecutor.execute_query` by
`@retry(stop=stop_after_attempt(3), wait=wait_exponential(multiplier=1, min=4, max=10))`
(query_executor.py line 11).

`attempt i` is the outcome of the `i`-th underlying query execution
(0-based); `retriesLeft` is the number of retries still allowed after the
current attempt.  tenacity's default retry predicate retries on any
exception, so the loop never inspects the error value: every failure is
retried until the attempt budget is exhausted, then the last error is
surfaced.  Returns the final outcome and the number of attempts made. -/
def retryFrom {α : Type} (attempt : Nat → Except DbError α) :
    (retriesLeft : Nat) → (i : Nat) → Except DbError α × Nat
  | 0, i => (attempt i, 1)
  | n + 1, i =>
    match attempt i with
    | Except.ok a => (Except.ok a, 1)
    | Except.error _ =>
      let r := retryFrom attempt n (i + 1)
      (r.1, r.2 + 1)

/-- `execute_query` under `stop_after_attempt(3)`: at most three attempts
(two retries after the first attempt). -/
def execute_query_with_retry {α : Type} (attempt : Nat → Except DbError α) :
    Except DbError α × Nat :=
  retryFrom attempt 2 0

/-- tenacity's `wait_exponential(multiplier, min, max)` wait (in seconds)
before retry number `n` (n = 1, 2, ...):
`multiplier * 2^n` clamped to `[min, max]` (and to be nonnegative). -/
def waitExponential (multiplier mn mx : ℚ) (n : Nat) : ℚ :=
  max (max 0 mn) (min (multiplier * 2 ^ n) mx)

/-- The wait applied between attempts of `execute_query`, with the
configuration of query_executor.py line 11. -/
def executeQueryWait (n : Nat) : ℚ :=
  waitExponential 1 4 10 n

/-- `KnowledgeImportExport._serialize_knowledge` / the serialization loop of
`export_knowledge` (knowledge_import_export.py lines 16-24): values that
are str/int/float/bool/list/dict are kept, anything else is rendered with
`str`.  Every constructor of the embedded `Value` type falls into the first
branch, so the embedded coercion keeps each value. -/
def serializeItem (item : PropMap) : PropMap :=
  item.map (fun p => (p.1, p.2))

/-- `KnowledgeImportExport.export_knowledge` (knowledge_import_export.py
lines 13-28): serializes `get_all_nodes(None)` to a JSON array.  The JSON
file is modelled as the list it contains (the embedded values survive a
`json.dump`/`json.load` round trip unchanged). -/
def export_knowledge (st : Store) : List PropMap :=
  (get_all_nodes st none).map serializeItem

/-- Python `str()` rendering of a value, as an f-string interpolates the
label popped by `import_knowledge` (a string renders as itself). -/
def pyStr : Value → String
  | vStr s => s
  | vInt n => toString n
  | vBool b => if b then "True" else "False"
  | vList items => jsonDumps (vList items)
  | vDict fields => jsonDumps (vDict fields)

/-- `KnowledgeImportExport.import_knowledge` (knowledge_import_export.py
lines 30-42): for each imported item, `label = item.pop('label', 'Concept')`
then `add_or_update_node(label, item)`.  `freshIds i` is the UUID that
`add_or_update_node` would generate for the `i`-th item. -/
def import_knowledge (freshIds : Nat → String) (st : Store)
    (items : List PropMap) : Store :=
  (items.foldl (fun (acc : Store × Nat) item =>
    let popped := alistPop item "label" (vStr "Concept")
    let r := add_or_update_node (freshIds acc.2) acc.1 (pyStr popped.1) popped.2
    (r.2, acc.2 + 1)) (st, 0)).1

/-- `KnowledgeImportExport._merge_nodes` (knowledge_import_export.py lines
128-135): start from a copy of the existing node; every field of the new
node that is absent or different in the copy is written into it. -/
def merge_nodes (existingNode newNode : PropMap) : PropMap :=
  newNode.foldl (fun merged p =>
    if alistGet merged p.1 = some p.2 then merged else alistSet merged p.1 p.2)
    existingNode

/-- `KnowledgeImportExport._import_node` (knowledge_import_export.py lines
113-126).  `none` models the uncaught `KeyError` raised by `item['id']`
when the record has no `id` field; an unknown strategy falls through and
does nothing. -/
def import_node (fresh : String) (st : Store) (label : String)
    (item : PropMap) (mergeStrategy : String) : Option Store :=
  if mergeStrategy = "update" then
    some (add_or_update_node fresh st label item).2
  else if mergeStrategy = "skip_existing" then
    match alistGet item "id" with
    | none => none
    | some idv =>
      match get_node st label idv with
      | some _ => some st
      | none => some (add_or_update_node fresh st label item).2
  else if mergeStrategy = "merge" then
    match alistGet item "id" with
    | none => none
    | some idv =>
      match get_node st label idv with
      | some existingNode =>
        some (add_or_update_node fresh st label (merge_nodes existingNode item)).2
      | none => some (add_or_update_node fresh st label item).2
  else
    some st

/-- An embedding vector (numpy float array). -/
abbrev Vec := List ℝ

/-- `EmbeddingManager.encode` (embedding_manager.py lines 51-66): cache
first; on a miss, compute via the external model, store the result in the
cache (and persist it), and return it.  `model` is the external
sentence-transformer; the third component counts how many times the model
was invoked (0 on a hit, 1 on a miss). -/
def encode (model : String → Vec) (cache : List (String × Vec))
    (text : String) : Vec × List (String × Vec) × Nat :=
  match alistGet cache text with
  | some v => (v, cache, 0)
  | none =>
    let v := model text
    (v, cache ++ [(text, v)], 1)

/-- `np.dot` on two vectors. -/
def dotProduct (a b : Vec) : ℝ :=
  (List.zipWith (fun x y => x * y) a b).sum

/-- `np.linalg.norm`: the Euclidean norm. -/
noncomputable def l2norm (a : Vec) : ℝ :=
  Real.sqrt ((a.map (fun x => x ^ 2)).sum)

/-- `EmbeddingManager.cosine_similarity` (embedding_manager.py lines
86-101). -/
noncomputable def cosine_similarity (a b : Vec) : ℝ :=
  dotProduct a b / (l2norm a * l2norm b)

/-- `EmbeddingManager.euclidean_distance` (embedding_manager.py lines
103-116): `np.linalg.norm(embedding1 - embedding2)`. -/
noncomputable def euclidean_distance (a b : Vec) : ℝ :=
  l2norm (List.zipWith (fun x y => x - y) a b)

/-- `enumerate(l)` starting at index `i`. -/
def pyEnumFrom {α : Type} : Nat → List α → List (Nat × α)
  | _, [] => []
  | i, a :: l => (i, a) :: pyEnumFrom (i + 1) l

/-- Insert into a descending-by-second-component list, before the first
element with a strictly smaller key (Python `sorted`/`list.sort` with
`reverse=True` is stable, so an inserted element goes after earlier
elements with an equal key). -/
noncomputable def insertDescBySnd {α : Type} (p : α × ℝ) :
    List (α × ℝ) → List (α × ℝ)
  | [] => [p]
  | q :: l => if q.2 ≤ p.2 then p :: q :: l else q :: insertDescBySnd p l

/-- Python's stable `sorted(pairs, key=lambda x: x[1], reverse=True)`. -/
noncomputable def pySortDescBySnd {α : Type} : List (α × ℝ) → List (α × ℝ)
  | [] => []
  | p :: l => insertDescBySnd p (pySortDescBySnd l)

/-- Insert into an ascending-by-second-component list, before the first
element with a strictly larger key (stability as above). -/
noncomputable def insertAscBySnd {α : Type} (p : α × ℝ) :
    List (α × ℝ) → List (α × ℝ)
  | [] => [p]
  | q :: l => if q.2 < p.2 then q :: insertAscBySnd p l else p :: q :: l

/-- Python's stable `sorted(pairs, key=lambda x: x[1])`. -/
noncomputable def pySortAscBySnd {α : Type} : List (α × ℝ) → List (α × ℝ)
  | [] => []
  | p :: l => insertAscBySnd p (pySortAscBySnd l)

/-- `EmbeddingManager.find_most_similar` (embedding_manager.py lines
118-151): score every candidate against the query, rank by score
(descending similarity for cosine, ascending distance for euclidean,
indices attached by `enumerate`), and keep the first `k`.  An unsupported
metric raises `ValueError`, modelled by the error branch. -/
noncomputable def find_most_similar (queryEmbedding : Vec)
    (embeddings : List Vec) (k : Nat) (metric : String) :
    Except String (List (Nat × ℝ)) :=
  if metric = "cosine" then
    let similarities := embeddings.map (fun emb => cosine_similarity queryEmbedding emb)
    Except.ok ((pySortDescBySnd (pyEnumFrom 0 similarities)).take k)
  else if metric = "euclidean" then
    let distances := embeddings.map (fun emb => euclidean_distance queryEmbedding emb)
    Except.ok ((pySortAscBySnd (pyEnumFrom 0 distances)).take k)
  else
    Except.error "Unsupported metric. Use cosine or euclidean."

/-- The state of a `CommunityManager` that the ranking stage of
`get_relevant_communities` reads: the `community_id -> summary` map (a
Python dict, iterated in insertion order) and the embedding cache of the
attached `EmbeddingManager`. -/
structure CMState where
  communitySummaries : List (Nat × String)
  cache : List (String × Vec)

/-- The loop of `CommunityManager.get_relevant_communities`
(community_manager.py lines 263-268): for each `(community_id, summary)`
pair, encode the summary (threading the embedding cache) and append
`(community_id, cosine_similarity(query_embedding, summary_embedding))`. -/
noncomputable def scoreSummaries (model : String → Vec) (queryEmbedding : Vec) :
    List (Nat × String) → List (String × Vec) → List (Nat × ℝ) × List (String × Vec)
  | [], cache => ([], cache)
  | (cid, summary) :: rest, cache =>
    let e := encode model cache summary
    let r := scoreSummaries model queryEmbedding rest e.2.1
    ((cid, cosine_similarity queryEmbedding e.1) :: r.1, r.2)

/-- `CommunityManager.get_relevant_communities` (community_manager.py lines
250-272): embed the query, score every community summary against it, sort
by similarity descending (`list.sort(key=..., reverse=True)`), and return
the community ids of the top 3.  The returned state carries the embedding
cache as mutated by the `encode` calls. -/
noncomputable def get_relevant_communities (model : String → Vec)
    (st : CMState) (query : String) : List Nat × CMState :=
  let q := encode model st.cache query
  let scored := scoreSummaries model q.1 st.communitySummaries q.2.1
  let ranked := pySortDescBySnd scored.1
  ((ranked.take 3).map Prod.fst,
   { st with cache := scored.2 })


/-! ### Association-list lemmas -/

theorem alistGet_alistSet {β : Type} (m : List (String × β)) (k : String)
    (v : β) (j : String) :
    alistGet (alistSet m k v) j = if j = k then some v else alistGet m j := by
  induction m with
  | nil =>
    by_cases h : j = k
    · simp [alistSet, alistGet, h]
    · simp [alistSet, alistGet, h, Ne.symm h]
  | cons p rest ih =>
    by_cases hp : p.1 = k
    · by_cases h : j = k
      · simp [alistSet, alistGet, hp, h]
      · simp [alistSet, alistGet, hp, h, Ne.symm h]
    · by_cases h : j = p.1
      · have hjk : ¬ j = k := fun hh => hp (h.symm.trans hh)
        simp [alistSet, alistGet, hp, hjk, h.symm]
      · have hpj : ¬ p.1 = j := fun hh => h hh.symm
        simp [alistSet, alistGet, hp, hpj, ih]

theorem alistGet_append {β : Type} (a b : List (String × β)) (k : String) :
    alistGet (a ++ b) k = (alistGet a k).orElse (fun _ => alistGet b k) := by
  induction a with
  | nil => simp [alistGet]
  | cons p rest ih =>
    by_cases h : p.1 = k <;> simp [alistGet, h, ih]

theorem alistGet_eq_none_of_not_mem {β : Type} {m : List (String × β)}
    {k : String} (h : k ∉ m.map Prod.fst) : alistGet m k = none := by
  induction m with
  | nil => rfl
  | cons p rest ih =>
    simp only [List.map_cons, List.mem_cons] at h
    push_neg at h
    have hp : ¬ p.1 = k := fun hh => h.1 hh.symm
    simp [alistGet, hp, ih h.2]

theorem not_mem_of_alistGet_eq_none {β : Type} {m : List (String × β)}
    {k : String} (h : alistGet m k = none) : k ∉ m.map Prod.fst := by
  induction m with
  | nil => simp
  | cons p rest ih =>
    by_cases hp : p.1 = k
    · simp [alistGet, hp] at h
    · simp only [alistGet, if_neg hp] at h
      simp only [List.map_cons, List.mem_cons]
      push_neg
      exact ⟨fun hh => hp hh.symm, ih h⟩

/-- Any fold whose step writes one binding (like `alistSet`, or the
conditional write of `_merge_nodes`) realizes, over a duplicate-free update
list, the dict-union semantics: updated keys read from the updates, all
other keys from the base map. -/
theorem alistGet_foldl_write {step : PropMap → String × Value → PropMap}
    (hstep : ∀ m p j, alistGet (step m p) j =
      if j = p.1 then some p.2 else alistGet m j) :
    ∀ (us : List (String × Value)), (us.map Prod.fst).Nodup →
      ∀ (m : PropMap) (j : String),
        alistGet (us.foldl step m) j =
          (alistGet us j).orElse (fun _ => alistGet m j) := by
  intro us
  induction us with
  | nil => intro _ m j; simp [alistGet]
  | cons p rest ih =>
    intro hnd m j
    simp only [List.map_cons, List.nodup_cons] at hnd
    rw [List.foldl_cons, ih hnd.2]
    by_cases h : j = p.1
    · subst h
      have hrest : alistGet rest p.1 = none := alistGet_eq_none_of_not_mem hnd.1
      simp [alistGet, hrest, hstep]
    · have hpj : ¬ p.1 = j := fun hh => h hh.symm
      simp only [alistGet, if_neg hpj]
      cases hr : alistGet rest j with
      | some v => simp
      | none => simp [hstep, h]

theorem alistGet_setAll {m us : PropMap} (hnd : (us.map Prod.fst).Nodup)
    (j : String) :
    alistGet (setAll m us) j = (alistGet us j).orElse (fun _ => alistGet m j) :=
  alistGet_foldl_write (fun m p j => alistGet_alistSet m p.1 p.2 j) us hnd m j

theorem alistGet_merge_nodes {ex nw : PropMap} (hnd : (nw.map Prod.fst).Nodup)
    (j : String) :
    alistGet (merge_nodes ex nw) j =
      (alistGet nw j).orElse (fun _ => alistGet ex j) := by
  refine alistGet_foldl_write ?_ nw hnd ex j
  intro m p j
  by_cases hm : alistGet m p.1 = some p.2
  · by_cases h : j = p.1 <;> simp [hm, h]
  · simp [hm, alistGet_alistSet]

theorem alistGet_coerceProps (m : PropMap) (j : String) :
    alistGet (coerceProps m) j = (alistGet m j).map coerceValue := by
  induction m with
  | nil => rfl
  | cons p rest ih =>
    by_cases h : p.1 = j
    · simp [coerceProps, alistGet, h]
    · simp only [coerceProps, List.map_cons, alistGet, if_neg h]
      simpa [coerceProps] using ih

theorem map_fst_alistSet {β : Type} (m : List (String × β)) (k : String)
    (v : β) :
    (alistSet m k v).map Prod.fst =
      if (alistGet m k).isSome then m.map Prod.fst
      else m.map Prod.fst ++ [k] := by
  induction m with
  | nil => simp [alistSet, alistGet]
  | cons p rest ih =>
    by_cases h : p.1 = k
    · simp [alistSet, alistGet, h]
    · simp only [alistSet, if_neg h, List.map_cons, ih, alistGet]
      split <;> simp

theorem nodup_map_fst_alistSet {β : Type} {m : List (String × β)}
    (hnd : (m.map Prod.fst).Nodup) (k : String) (v : β) :
    ((alistSet m k v).map Prod.fst).Nodup := by
  rw [map_fst_alistSet]
  by_cases hs : (alistGet m k).isSome
  · simp [hs, hnd]
  · have hnone : alistGet m k = none := by
      cases hm : alistGet m k with
      | none => rfl
      | some w => simp [hm] at hs
    have hk : k ∉ m.map Prod.fst := not_mem_of_alistGet_eq_none hnone
    simp [hs, List.nodup_append, hnd, hk]

theorem map_fst_coerceProps (m : PropMap) :
    (coerceProps m).map Prod.fst = m.map Prod.fst := by
  induction m with
  | nil => rfl
  | cons p rest ih =>
    simp only [coerceProps, List.map_cons] at ih ⊢
    rw [ih]

/-! ### Coercion preserves truthiness of the id -/

theorem jsonDumps_vList_ne_empty (items : List Value) :
    jsonDumps (vList items) ≠ "" := by
  intro heq
  have hd := congrArg String.data heq
  simp [jsonDumps, String.data_append] at hd

theorem jsonDumps_vDict_ne_empty (fields : List (String × Value)) :
    jsonDumps (vDict fields) ≠ "" := by
  intro heq
  have hd := congrArg String.data heq
  simp [jsonDumps, String.data_append] at hd

theorem pyTruthy_coerceValue {v : Value} (h : pyTruthy v) :
    pyTruthy (coerceValue v) := by
  cases v with
  | vStr s => simpa [coerceValue, needsJsonDump] using h
  | vInt n => simpa [coerceValue, needsJsonDump] using h
  | vBool b => simpa [coerceValue, needsJsonDump] using h
  | vList items =>
    by_cases hdump : needsJsonDump (vList items)
    · simp [coerceValue, hdump, pyTruthy, jsonDumps_vList_ne_empty items]
    · simpa [coerceValue, hdump] using h
  | vDict fields =>
    simp [coerceValue, needsJsonDump, pyTruthy, jsonDumps_vDict_ne_empty fields]

/-- The id of a stored node exists and is Python-truthy (in particular a
string id is non-empty). -/
def hasGoodId (nd : Node) : Prop :=
  ∃ v, alistGet nd.props "id" = some v ∧ pyTruthy v

theorem pyTruthy_nodeIdValue {props : PropMap} {fresh : String}
    (hfresh : fresh ≠ "") : pyTruthy (nodeIdValue props fresh) := by
  unfold nodeIdValue
  cases h : alistGet props "id" with
  | none => simp [pyTruthy, hfresh]
  | some v =>
    show pyTruthy (if pyTruthy v = true then v else vStr fresh) = true
    by_cases hv : pyTruthy v
    · rw [if_pos hv]; exact hv
    · rw [if_neg hv]; simp [pyTruthy, hfresh]

theorem alistGet_coerced_id {props : PropMap} (nodeId : Value) :
    alistGet (coerceProps (alistSet props "id" nodeId)) "id" =
      some (coerceValue nodeId) := by
  rw [alistGet_coerceProps, alistGet_alistSet]
  simp

/-- C10: Every node written through `add_or_update_node` carries a truthy
(non-empty) `id` property: a supplied truthy id is used as the merge key,
an absent id is replaced by the fresh UUID, and every node of a store whose
nodes all carry truthy ids still carries a truthy id after the call. -/
theorem add_or_update_node_id_C10 :
    ∀ (st : Store) (label : String) (props : PropMap) (fresh : String),
      fresh ≠ "" →
      (props.map Prod.fst).Nodup →
      (∀ nd ∈ st.nodes, hasGoodId nd) →
      (∀ nd ∈ (add_or_update_node fresh st label props).2.nodes, hasGoodId nd) ∧
      (∀ v, alistGet props "id" = some v → pyTruthy v →
        nodeIdValue props fresh = v) ∧
      (alistGet props "id" = none → nodeIdValue props fresh = vStr fresh) := by
  intro st label props fresh hfresh hnd hst
  have hT : pyTruthy (nodeIdValue props fresh) := pyTruthy_nodeIdValue hfresh
  have hkeys : (((alistSet props "id" (nodeIdValue props fresh)).map Prod.fst)).Nodup :=
    nodup_map_fst_alistSet hnd _ _
  have hckeys :
      ((coerceProps (alistSet props "id" (nodeIdValue props fresh))).map Prod.fst).Nodup := by
    rw [map_fst_coerceProps]; exact hkeys
  have hid2 : alistGet (coerceProps (alistSet props "id" (nodeIdValue props fresh))) "id" =
      some (coerceValue (nodeIdValue props fresh)) := alistGet_coerced_id _
  refine ⟨?_, ?_, ?_⟩
  · intro nd hmem
    simp only [add_or_update_node] at hmem
    by_cases hmatch : st.nodes.any (mergeMatches label (nodeIdValue props fresh))
    · rw [if_pos hmatch] at hmem
      simp only [List.mem_map] at hmem
      obtain ⟨nd0, hnd0, rfl⟩ := hmem
      by_cases hm : mergeMatches label (nodeIdValue props fresh) nd0
      · rw [if_pos hm]
        refine ⟨coerceValue (nodeIdValue props fresh), ?_, pyTruthy_coerceValue hT⟩
        rw [alistGet_setAll hckeys, hid2]
        rfl
      · rw [if_neg hm]
        exact hst nd0 hnd0
    · rw [if_neg hmatch] at hmem
      simp only [List.mem_append, List.mem_singleton] at hmem
      rcases hmem with hmem | rfl
      · exact hst nd hmem
      · refine ⟨coerceValue (nodeIdValue props fresh), ?_, pyTruthy_coerceValue hT⟩
        rw [alistGet_setAll hckeys, hid2]
        rfl
  · intro v hv htv
    simp [nodeIdValue, hv, htv]
  · intro hv
    simp [nodeIdValue, hv]

/-- C10 witness: on a concrete call without a supplied id, the fresh UUID
becomes the merge key (all hypotheses discharged concretely). -/
theorem add_or_update_node_id_C10_witness :
    nodeIdValue [("name", vStr "gravity")] "u-1" = vStr "u-1" :=
  (add_or_update_node_id_C10 emptyStore "Concept" [("name", vStr "gravity")] "u-1"
    (by decide) (by decide) (by simp [emptyStore])).2.2 rfl

/-- C1 counterexample: the upsert of `node_manager.py` merges on the `id`
property, not on `name`.  The spec's two-call sequence (no id supplied, same
name `gravity`) generates two distinct UUIDs and therefore creates two
nodes named `gravity`, not one. -/
theorem upsert_name_key_counterexample_C1 :
    ((add_or_update_node "u2"
        (add_or_update_node "u1" emptyStore "Concept"
          [("name", vStr "gravity")]).2
        "Concept"
        [("name", vStr "gravity"), ("description", vStr "attraction")]).2).nodes.countP
      (fun nd => alistGet nd.props "name" = some (vStr "gravity")) = 2 := by
  decide

/-- C1 (amended): the upsert is keyed by the `id` property.  When both calls
supply the same non-empty `id`, the second call finds the node by id and
merges the properties: the store ends with exactly one node, carrying the
name and the description. -/
theorem upsert_id_key_C1 :
    ∀ (label n d i u1 u2 : String), i ≠ "" →
      ((add_or_update_node u2
          (add_or_update_node u1 emptyStore label
            [("id", vStr i), ("name", vStr n)]).2
          label
          [("id", vStr i), ("name", vStr n), ("description", vStr d)]).2).nodes =
        [{ label := label,
           props := [("id", vStr i), ("name", vStr n), ("description", vStr d)] }] := by
  intro label n d i u1 u2 hi
  simp [add_or_update_node, nodeIdValue, alistGet, alistSet, coerceProps,
    coerceValue, needsJsonDump, setAll, mergeMatches, pyTruthy, emptyStore, hi]

/-- C1 witness: the amended statement at a concrete label, name,
description and id. -/
theorem upsert_id_key_C1_witness :
    ((add_or_update_node "u2"
        (add_or_update_node "u1" emptyStore "Concept"
          [("id", vStr "n-1"), ("name", vStr "gravity")]).2
        "Concept"
        [("id", vStr "n-1"), ("name", vStr "gravity"),
         ("description", vStr "attraction")]).2).nodes =
      [{ label := "Concept",
         props := [("id", vStr "n-1"), ("name", vStr "gravity"),
                   ("description", vStr "attraction")] }] :=
  upsert_id_key_C1 "Concept" "gravity" "attraction" "n-1" "u1" "u2" (by decide)

/-- A store holding one ordinary node, used to exhibit the round-trip bug. -/
def c2Store : Store :=
  { nodes := [{ label := "Concept",
                props := [("id", vStr "a"), ("name", vStr "x")] }],
    rels := [] }

/-- C2 (code bug): `export_knowledge` passes the Python value `None` to
`get_all_nodes`, whose f-string renders it as the label `None`
(`MATCH (n:None)`), even though its own comment says `# Get all nodes`.
On a store holding one Concept node the export is empty, so the
export/import round trip into an empty store reproduces nothing instead of
the store's `(label, properties)` pair. -/
theorem export_import_roundtrip_bug_C2 :
    export_knowledge c2Store = [] ∧
    import_knowledge (fun n => toString n) emptyStore (export_knowledge c2Store) =
      emptyStore ∧
    c2Store.nodes ≠ [] := by
  refine ⟨rfl, rfl, by decide⟩

/-- C3 counterexample: an authentication failure is retried like any other
exception — the tenacity decorator of `execute_query` makes three attempts
before surfacing it, not one. -/
theorem auth_error_retried_counterexample_C3 :
    execute_query_with_retry
        (fun _ => (Except.error DbError.auth : Except DbError (List PropMap))) =
      (Except.error DbError.auth, 3) ∧ (3 : Nat) ≠ 1 :=
  ⟨rfl, by decide⟩

/-- C3 (amended): `execute_query` is retried with bounded exponential
backoff (every wait lies in [4, 10] seconds) for at most three attempts and
the last error is then surfaced — but the policy does not distinguish
error kinds: connectivity and authentication failures alike are retried
until the attempt budget is exhausted. -/
theorem execute_query_retry_policy_C3 :
    ∀ {α : Type} (attempt : Nat → Except DbError α),
      (∀ a, attempt 0 = Except.ok a →
        execute_query_with_retry attempt = (Except.ok a, 1)) ∧
      (∀ e0 e1 e2, attempt 0 = Except.error e0 → attempt 1 = Except.error e1 →
        attempt 2 = Except.error e2 →
        execute_query_with_retry attempt = (Except.error e2, 3)) ∧
      (∀ n, 4 ≤ executeQueryWait n ∧ executeQueryWait n ≤ 10) := by
  intro α attempt
  refine ⟨?_, ?_, ?_⟩
  · intro a h
    simp [execute_query_with_retry, retryFrom, h]
  · intro e0 e1 e2 h0 h1 h2
    simp [execute_query_with_retry, retryFrom, h0, h1, h2]
  · intro n
    unfold executeQueryWait waitExponential
    constructor
    · exact le_trans (by norm_num : (4 : ℚ) ≤ max 0 4) (le_max_left _ _)
    · exact max_le (by norm_num) (min_le_right _ _)

/-- C3 witness: the amended statement at a concrete attempt stream (all
connectivity failures) and a concrete wait index. -/
theorem execute_query_retry_policy_C3_witness :
    execute_query_with_retry
        (fun _ => (Except.error DbError.connectivity : Except DbError (List PropMap))) =
      (Except.error DbError.connectivity, 3) ∧ 4 ≤ executeQueryWait 1 :=
  ⟨(execute_query_retry_policy_C3
      (fun _ => (Except.error DbError.connectivity : Except DbError (List PropMap)))).2.1
      DbError.connectivity DbError.connectivity DbError.connectivity rfl rfl rfl,
   ((execute_query_retry_policy_C3
      (fun _ => (Except.error DbError.connectivity : Except DbError (List PropMap)))).2.2 1).1⟩

/-- A destination store holding a Task node with id `a`, used to exhibit
that `skip_existing` keys its existence check on `(label, id)`. -/
def c4Store : Store :=
  { nodes := [{ label := "Task", props := [("id", vStr "a")] }], rels := [] }

/-- C4 counterexample: the claim says a `skip_existing` record is written
only when no node with its id exists.  But `_import_node` checks existence
through `get_node(label, id)`, which also matches the label: a record whose
id exists only under a different label is written as a new node (the store
grows from one node to two). -/
theorem skip_existing_cross_label_counterexample_C4 :
    (import_node "u-1" c4Store "Concept" [("id", vStr "a")] "skip_existing").map
        (fun st => st.nodes.length) = some 2 ∧
    c4Store.nodes.length = 1 := by
  refine ⟨by decide, by decide⟩

/-- C4 (amended): `skip_existing` leaves the whole store unchanged whenever
a node with the record's label and id exists; when no such node exists the
record is written as a new appended node (existing nodes untouched).
`update` runs the upsert unconditionally: every destination node matching
the record's label and id receives the imported fields (imported values
overwrite, fields absent from the import are preserved). -/
theorem import_node_merge_strategies_C4 :
    ∀ (st : Store) (label : String) (item : PropMap) (idv : Value)
      (fresh : String),
      alistGet item "id" = some idv →
      ((∃ nd0, get_node st label idv = some nd0) →
        import_node fresh st label item "skip_existing" = some st) ∧
      (get_node st label idv = none → pyTruthy idv →
        import_node fresh st label item "skip_existing" =
          some { st with nodes := st.nodes ++
            [Node.mk label (setAll [("id", idv)] (coerceProps (alistSet item "id" idv)))] }) ∧
      (pyTruthy idv → (item.map Prod.fst).Nodup →
        st.nodes.any (mergeMatches label idv) →
        (import_node fresh st label item "update" =
          some { st with nodes := st.nodes.map (fun nd =>
            if mergeMatches label idv nd then
              Node.mk nd.label (setAll nd.props (coerceProps (alistSet item "id" idv)))
            else nd) } ∧
        ∀ (nd : Node) (k : String),
          alistGet (setAll nd.props (coerceProps (alistSet item "id" idv))) k =
            ((alistGet (coerceProps (alistSet item "id" idv)) k).orElse
              (fun _ => alistGet nd.props k)))) := by
  intro st label item idv fresh hid
  refine ⟨?_, ?_, ?_⟩
  · intro hex
    obtain ⟨nd0, h0⟩ := hex
    simp [import_node, hid, h0]
  · intro hnone htruthy
    have hnodeId : nodeIdValue item fresh = idv := by
      simp [nodeIdValue, hid, htruthy]
    have hfilter : st.nodes.filter (mergeMatches label idv) = [] := by
      by_cases hf : st.nodes.filter (mergeMatches label idv) = []
      · exact hf
      · exfalso
        unfold get_node at hnone
        rcases hh : (st.nodes.filter (mergeMatches label idv)).head? with _ | nd0
        · exact hf (List.head?_eq_none_iff.mp hh)
        · rw [hh] at hnone
          simp at hnone
    have hany : st.nodes.any (mergeMatches label idv) = false := by
      rw [List.any_eq_false]
      intro nd hnd hmm
      have : nd ∈ st.nodes.filter (mergeMatches label idv) :=
        List.mem_filter.mpr ⟨hnd, hmm⟩
      simp [hfilter] at this
    simp only [import_node, if_neg (by decide : ¬("skip_existing" = "update")),
      if_pos rfl, hid, hnone]
    simp only [add_or_update_node, hnodeId, hany]
    simp
  · intro htruthy hnd hany
    have hnodeId : nodeIdValue item fresh = idv := by
      simp [nodeIdValue, hid, htruthy]
    constructor
    · simp only [import_node, if_pos rfl]
      simp only [add_or_update_node, hnodeId, hany]
      simp
    · intro nd k
      have hckeys :
          ((coerceProps (alistSet item "id" idv)).map Prod.fst).Nodup := by
        rw [map_fst_coerceProps]
        exact nodup_map_fst_alistSet hnd _ _
      exact alistGet_setAll hckeys k

/-- C4 witness: the amended statement at a concrete store (a Concept node
with id `a` already present) and a concrete `skip_existing` import. -/
theorem import_node_merge_strategies_C4_witness :
    import_node "u-1"
        { nodes := [{ label := "Concept", props := [("id", vStr "a")] }],
          rels := [] }
        "Concept" [("id", vStr "a"), ("x", vInt 1)] "skip_existing" =
      some { nodes := [{ label := "Concept", props := [("id", vStr "a")] }],
             rels := [] } :=
  (import_node_merge_strategies_C4
      { nodes := [{ label := "Concept", props := [("id", vStr "a")] }],
        rels := [] }
      "Concept" [("id", vStr "a"), ("x", vInt 1)] (vStr "a") "u-1" rfl).1
    ⟨[("id", vStr "a")], rfl⟩

/-- C6: `encode` is cache-first.  On a text not yet cached, the first call
invokes the external model exactly once and populates the cache; the second
call is served from the cache: it returns the identical vector, invokes the
model zero times, and leaves the cache unchanged. -/
theorem encode_cache_hit_C6 :
    ∀ (model : String → Vec) (cache : List (String × Vec)) (text : String),
      alistGet cache text = none →
      (encode model cache text).2.2 = 1 ∧
      (encode model (encode model cache text).2.1 text).1 =
        (encode model cache text).1 ∧
      (encode model (encode model cache text).2.1 text).2.2 = 0 ∧
      (encode model (encode model cache text).2.1 text).2.1 =
        (encode model cache text).2.1 := by
  intro model cache text h
  have h2 : alistGet (cache ++ [(text, model text)]) text = some (model text) := by
    rw [alistGet_append, h]
    simp [alistGet]
  simp [encode, h, h2]

/-- C6 witness: a concrete fresh cache and text. -/
theorem encode_cache_hit_C6_witness :
    (encode (fun _ => ([] : Vec)) [] "apple").2.2 = 1 ∧
    (encode (fun _ => ([] : Vec)) (encode (fun _ => ([] : Vec)) [] "apple").2.1 "apple").1 =
      (encode (fun _ => ([] : Vec)) [] "apple").1 ∧
    (encode (fun _ => ([] : Vec)) (encode (fun _ => ([] : Vec)) [] "apple").2.1 "apple").2.2 = 0 ∧
    (encode (fun _ => ([] : Vec)) (encode (fun _ => ([] : Vec)) [] "apple").2.1 "apple").2.1 =
      (encode (fun _ => ([] : Vec)) [] "apple").2.1 :=
  encode_cache_hit_C6 (fun _ => ([] : Vec)) [] "apple" rfl

/-- C7 counterexample: `add_relationship` against endpoints that do not
exist completes with `Except.ok` — the two `MATCH` clauses find no rows, so
`CREATE` is skipped silently; no reference error is raised (the claim
expects a failure). -/
theorem add_relationship_silent_counterexample_C7 :
    add_relationship "r-1" emptyStore "missing-start" "missing-end"
      "RELATES_TO" [] = Except.ok emptyStore := by
  rfl

/-- C7 (amended): when at least one endpoint id matches no stored node,
`add_relationship` creates no relationship and leaves the store exactly as
it was — but it does not fail: the call completes without raising. -/
theorem add_relationship_missing_endpoint_C7 :
    ∀ (st : Store) (a b t : String) (props : PropMap) (fresh : String),
      ((∀ nd ∈ st.nodes, ¬ alistGet nd.props "id" = some (vStr a)) ∨
       (∀ nd ∈ st.nodes, ¬ alistGet nd.props "id" = some (vStr b))) →
      add_relationship fresh st a b t props = Except.ok st := by
  intro st a b t props fresh h
  unfold add_relationship
  rcases h with h | h
  · have hf : st.nodes.filter
        (fun nd => alistGet nd.props "id" = some (vStr a)) = [] := by
      simp only [List.filter_eq_nil_iff]
      intro nd hnd
      simpa using h nd hnd
    simp [hf]
  · have hf : st.nodes.filter
        (fun nd => alistGet nd.props "id" = some (vStr b)) = [] := by
      simp only [List.filter_eq_nil_iff]
      intro nd hnd
      simpa using h nd hnd
    have hfl : ∀ (l : List Node),
        l.flatMap (fun _ => ([] : List GraphRel)) = [] := by
      intro l
      induction l with
      | nil => rfl
      | cons x xs ih => simp
    simp [hf, hfl]

/-- C7 witness: a concrete store with no matching endpoints. -/
theorem add_relationship_missing_endpoint_C7_witness :
    add_relationship "r-1" emptyStore "a" "b" "RELATES_TO" [] =
      Except.ok emptyStore :=
  add_relationship_missing_endpoint_C7 emptyStore "a" "b" "RELATES_TO" [] "r-1"
    (Or.inl (by simp [emptyStore]))

/-- C8: `_merge_nodes` is the claimed field-wise combine: every field of
the imported record ends up with the imported value (whether it was absent
or different or equal in the destination), and every destination field
absent from the imported record keeps its value. -/
theorem merge_nodes_fieldwise_C8 :
    ∀ (existingNode newNode : PropMap), (newNode.map Prod.fst).Nodup →
      (∀ k v, alistGet newNode k = some v →
        alistGet (merge_nodes existingNode newNode) k = some v) ∧
      (∀ k, alistGet newNode k = none →
        alistGet (merge_nodes existingNode newNode) k =
          alistGet existingNode k) := by
  intro ex nw hnd
  constructor
  · intro k v hk
    rw [alistGet_merge_nodes hnd, hk]
    rfl
  · intro k hk
    rw [alistGet_merge_nodes hnd, hk]
    rfl

/-- C8 witness: a concrete merge — the imported `x` overwrites, the
destination-only `y` is preserved. -/
theorem merge_nodes_fieldwise_C8_witness :
    alistGet (merge_nodes [("id", vStr "a"), ("x", vInt 1), ("y", vInt 2)]
        [("id", vStr "a"), ("x", vInt 9), ("z", vInt 3)]) "x" = some (vInt 9) ∧
    alistGet (merge_nodes [("id", vStr "a"), ("x", vInt 1), ("y", vInt 2)]
        [("id", vStr "a"), ("x", vInt 9), ("z", vInt 3)]) "y" =
      alistGet [("id", vStr "a"), ("x", vInt 1), ("y", vInt 2)] "y" :=
  ⟨(merge_nodes_fieldwise_C8 [("id", vStr "a"), ("x", vInt 1), ("y", vInt 2)]
      [("id", vStr "a"), ("x", vInt 9), ("z", vInt 3)] (by decide)).1 "x" (vInt 9)
      (by decide),
   (merge_nodes_fieldwise_C8 [("id", vStr "a"), ("x", vInt 1), ("y", vInt 2)]
      [("id", vStr "a"), ("x", vInt 9), ("z", vInt 3)] (by decide)).2 "y"
      (by decide)⟩

/-! ### Ranking lemmas (stable sort by score, enumerate) -/

theorem mem_insertDescBySnd {α : Type} (p x : α × ℝ) (l : List (α × ℝ)) :
    x ∈ insertDescBySnd p l ↔ x = p ∨ x ∈ l := by
  induction l with
  | nil => simp [insertDescBySnd]
  | cons q rest ih =>
    by_cases h : q.2 ≤ p.2
    · simp [insertDescBySnd, h]
    · simp [insertDescBySnd, h, ih]
      tauto

theorem pairwise_insertDescBySnd {α : Type} {l : List (α × ℝ)} (p : α × ℝ)
    (hl : List.Pairwise (fun a b : α × ℝ => b.2 ≤ a.2) l) :
    List.Pairwise (fun a b : α × ℝ => b.2 ≤ a.2) (insertDescBySnd p l) := by
  induction l with
  | nil => simp [insertDescBySnd]
  | cons q rest ih =>
    rcases List.pairwise_cons.mp hl with ⟨hq, hrest⟩
    by_cases h : q.2 ≤ p.2
    · rw [insertDescBySnd, if_pos h]
      refine List.pairwise_cons.mpr ⟨?_, hl⟩
      intro x hx
      rcases List.mem_cons.mp hx with rfl | hx
      · exact h
      · exact le_trans (hq x hx) h
    · rw [insertDescBySnd, if_neg h]
      refine List.pairwise_cons.mpr ⟨?_, ih hrest⟩
      intro x hx
      rcases (mem_insertDescBySnd p x rest).mp hx with rfl | hx
      · exact le_of_lt (lt_of_not_le h)
      · exact hq x hx

theorem pairwise_pySortDescBySnd {α : Type} (l : List (α × ℝ)) :
    List.Pairwise (fun a b : α × ℝ => b.2 ≤ a.2) (pySortDescBySnd l) := by
  induction l with
  | nil => simp [pySortDescBySnd]
  | cons p rest ih => exact pairwise_insertDescBySnd p ih

theorem mem_pySortDescBySnd {α : Type} (x : α × ℝ) (l : List (α × ℝ)) :
    x ∈ pySortDescBySnd l ↔ x ∈ l := by
  induction l with
  | nil => simp [pySortDescBySnd]
  | cons p rest ih =>
    rw [pySortDescBySnd, mem_insertDescBySnd]
    simp [ih]

theorem mem_insertAscBySnd {α : Type} (p x : α × ℝ) (l : List (α × ℝ)) :
    x ∈ insertAscBySnd p l ↔ x = p ∨ x ∈ l := by
  induction l with
  | nil => simp [insertAscBySnd]
  | cons q rest ih =>
    by_cases h : q.2 < p.2
    · simp [insertAscBySnd, h, ih]
      tauto
    · simp [insertAscBySnd, h]

theorem pairwise_insertAscBySnd {α : Type} {l : List (α × ℝ)} (p : α × ℝ)
    (hl : List.Pairwise (fun a b : α × ℝ => a.2 ≤ b.2) l) :
    List.Pairwise (fun a b : α × ℝ => a.2 ≤ b.2) (insertAscBySnd p l) := by
  induction l with
  | nil => simp [insertAscBySnd]
  | cons q rest ih =>
    rcases List.pairwise_cons.mp hl with ⟨hq, hrest⟩
    by_cases h : q.2 < p.2
    · rw [insertAscBySnd, if_pos h]
      refine List.pairwise_cons.mpr ⟨?_, ih hrest⟩
      intro x hx
      rcases (mem_insertAscBySnd p x rest).mp hx with rfl | hx
      · exact le_of_lt h
      · exact hq x hx
    · rw [insertAscBySnd, if_neg h]
      refine List.pairwise_cons.mpr ⟨?_, hl⟩
      intro x hx
      rcases List.mem_cons.mp hx with rfl | hx
      · exact le_of_not_lt h
      · exact le_trans (le_of_not_lt h) (hq x hx)

theorem pairwise_pySortAscBySnd {α : Type} (l : List (α × ℝ)) :
    List.Pairwise (fun a b : α × ℝ => a.2 ≤ b.2) (pySortAscBySnd l) := by
  induction l with
  | nil => simp [pySortAscBySnd]
  | cons p rest ih => exact pairwise_insertAscBySnd p ih

theorem mem_pySortAscBySnd {α : Type} (x : α × ℝ) (l : List (α × ℝ)) :
    x ∈ pySortAscBySnd l ↔ x ∈ l := by
  induction l with
  | nil => simp [pySortAscBySnd]
  | cons p rest ih =>
    rw [pySortAscBySnd, mem_insertAscBySnd]
    simp [ih]

theorem fst_lt_of_mem_pyEnumFrom {α : Type} :
    ∀ (i : Nat) (l : List α), ∀ p ∈ pyEnumFrom i l, p.1 < i + l.length := by
  intro i l
  induction l generalizing i with
  | nil => simp [pyEnumFrom]
  | cons a rest ih =>
    intro p hp
    rw [pyEnumFrom] at hp
    rcases List.mem_cons.mp hp with rfl | hp
    · simp
    · have := ih (i + 1) p hp
      simp only [List.length_cons]
      omega

/-- C5: `find_most_similar` returns, for metric cosine, a list of
`(index, score)` pairs sorted non-increasing in similarity, and for metric
euclidean sorted non-decreasing in distance; in both cases at most `k`
pairs come back and every index points into the candidate list. -/
theorem find_most_similar_ordering_C5 :
    ∀ (queryEmbedding : Vec) (embeddings : List Vec) (k : Nat),
      (∃ l, find_most_similar queryEmbedding embeddings k "cosine" = Except.ok l ∧
        List.Pairwise (fun a b : Nat × ℝ => b.2 ≤ a.2) l ∧
        l.length ≤ k ∧ ∀ p ∈ l, p.1 < embeddings.length) ∧
      (∃ l, find_most_similar queryEmbedding embeddings k "euclidean" = Except.ok l ∧
        List.Pairwise (fun a b : Nat × ℝ => a.2 ≤ b.2) l ∧
        l.length ≤ k ∧ ∀ p ∈ l, p.1 < embeddings.length) := by
  intro q embs k
  constructor
  · refine ⟨(pySortDescBySnd (pyEnumFrom 0
        (embs.map (fun emb => cosine_similarity q emb)))).take k,
      ?_, ?_, ?_, ?_⟩
    · simp [find_most_similar]
    · exact (pairwise_pySortDescBySnd _).sublist (List.take_sublist _ _)
    · rw [List.length_take]
      exact min_le_left _ _
    · intro p hp
      have hmem := (mem_pySortDescBySnd p _).mp (List.mem_of_mem_take hp)
      have := fst_lt_of_mem_pyEnumFrom 0 _ p hmem
      simpa using this
  · refine ⟨(pySortAscBySnd (pyEnumFrom 0
        (embs.map (fun emb => euclidean_distance q emb)))).take k,
      ?_, ?_, ?_, ?_⟩
    · simp [find_most_similar]
    · exact (pairwise_pySortAscBySnd _).sublist (List.take_sublist _ _)
    · rw [List.length_take]
      exact min_le_left _ _
    · intro p hp
      have hmem := (mem_pySortAscBySnd p _).mp (List.mem_of_mem_take hp)
      have := fst_lt_of_mem_pyEnumFrom 0 _ p hmem
      simpa using this

/-! ### Cache-replay lemmas for the community ranking -/

theorem alistGet_encode_self (model : String → Vec)
    (cache : List (String × Vec)) (text : String) :
    alistGet (encode model cache text).2.1 text = some (encode model cache text).1 := by
  unfold encode
  cases h : alistGet cache text with
  | some v => simpa using h
  | none =>
    simp only
    rw [alistGet_append, h]
    simp [alistGet]

theorem alistGet_encode_mono (model : String → Vec)
    {cache : List (String × Vec)} (text : String) {k : String} {w : Vec}
    (hk : alistGet cache k = some w) :
    alistGet (encode model cache text).2.1 k = some w := by
  unfold encode
  cases h : alistGet cache text with
  | some v => simpa using hk
  | none =>
    simp only
    rw [alistGet_append, hk]
    rfl

theorem encode_of_get_some (model : String → Vec)
    {cache : List (String × Vec)} {text : String} {v : Vec}
    (h : alistGet cache text = some v) :
    encode model cache text = (v, cache, 0) := by
  unfold encode
  rw [h]

theorem scoreSummaries_mono (model : String → Vec) (qv : Vec) :
    ∀ (ss : List (Nat × String)) (cache : List (String × Vec))
      (k : String) (w : Vec), alistGet cache k = some w →
      alistGet (scoreSummaries model qv ss cache).2 k = some w := by
  intro ss
  induction ss with
  | nil => intro cache k w hk; simpa [scoreSummaries] using hk
  | cons p rest ih =>
    intro cache k w hk
    rw [scoreSummaries]
    exact ih _ k w (alistGet_encode_mono model p.2 hk)

theorem scoreSummaries_replay (model : String → Vec) (qv : Vec) :
    ∀ (ss : List (Nat × String)) (cache : List (String × Vec)),
      scoreSummaries model qv ss (scoreSummaries model qv ss cache).2 =
        scoreSummaries model qv ss cache := by
  intro ss
  induction ss with
  | nil => intro cache; rfl
  | cons p rest ih =>
    intro cache
    obtain ⟨cid, s⟩ := p
    have hself : alistGet (encode model cache s).2.1 s =
        some (encode model cache s).1 := alistGet_encode_self model cache s
    have hfinal : alistGet
        (scoreSummaries model qv rest (encode model cache s).2.1).2 s =
        some (encode model cache s).1 :=
      scoreSummaries_mono model qv rest _ s _ hself
    conv_lhs => rw [scoreSummaries]
    rw [scoreSummaries]
    simp only
    rw [encode_of_get_some model hfinal]
    simp only
    rw [ih]

/-- C9: the ranking stage of `get_relevant_communities` is deterministic —
it leaves the community summaries untouched, and a second identical query
issued right after the first (against the organizer state the first call
leaves behind, hence an unchanged knowledge set) returns the same top-3
community ids and the same state. -/
theorem get_relevant_communities_stable_C9 :
    ∀ (model : String → Vec) (st : CMState) (query : String),
      (get_relevant_communities model st query).2.communitySummaries =
        st.communitySummaries ∧
      get_relevant_communities model
          (get_relevant_communities model st query).2 query =
        get_relevant_communities model st query := by
  intro model st query
  constructor
  · rfl
  · have hq : alistGet
        (scoreSummaries model (encode model st.cache query).1
          st.communitySummaries (encode model st.cache query).2.1).2 query =
        some (encode model st.cache query).1 :=
      scoreSummaries_mono model _ st.communitySummaries _ query _
        (alistGet_encode_self model st.cache query)
    unfold get_relevant_communities
    simp only
    rw [encode_of_get_some model hq]
    simp only
    rw [scoreSummaries_replay]
